import Mathlib

/-!
Shallow embedding of the pyrise marshalling core (`pyrise.py`): the
name-conversion utilities `Highrise.key_to_class` / `Highrise.class_to_key`,
the timezone helpers `Highrise.from_utc` / `Highrise.to_utc`, the schema
registry (the per-class `fields` dictionaries of `HighriseField` settings),
and the three marshalling operations `HighriseObject.__init__`,
`HighriseObject.from_xml` and `HighriseObject.save_xml`.

Modelling conventions:
- Python `datetime.datetime` values are `PyDateTime` records of calendar
  components; `timedelta(hours=h)` addition goes through the proleptic
  Gregorian second count, as Python's `datetime` arithmetic does.
- `datetime.now()` is modelled by an explicit `now : PyDateTime` parameter
  threaded to every operation that evaluates a `HighriseField.default`.
- The class-level mutable `Highrise._tzoffset` is an explicit `tz : Int`
  parameter of the operations that read it.
- Python exceptions become `Except` / `Option` results; the recursive
  `from_xml` / `save_xml` take a `Nat` stack budget standing for the Python
  call stack (exhaustion plays the role of `RecursionError`, which the
  actual data never reaches).
-/

/-! ## Python `datetime` model -/

/-- Components of a naive Python `datetime` (no microseconds: pyrise's wire
format has one-second resolution and all datetimes it builds have
`microsecond = 0` except `datetime.now()`, whose sub-second part is
irrelevant to every comparison modelled here). -/
structure PyDateTime where
  year : Nat
  month : Nat
  day : Nat
  hour : Nat
  minute : Nat
  second : Nat
deriving DecidableEq, Repr

/-- Is `y` a Gregorian leap year (Python `calendar.isleap`). -/
def isLeapYear (y : Nat) : Bool :=
  y % 4 = 0 && (y % 100 ≠ 0 || y % 400 = 0)

/-- Days in month `m` of year `y` (Python `calendar.monthrange`). -/
def daysInMonth (y m : Nat) : Nat :=
  if m = 2 then (if isLeapYear y then 29 else 28)
  else if m = 4 ∨ m = 6 ∨ m = 9 ∨ m = 11 then 30
  else 31

/-- Days in the years before year `y` (year 1 is the epoch year, as in
Python's `datetime.toordinal`). -/
def daysBeforeYear (y : Nat) : Nat :=
  let a := y - 1
  a * 365 + a / 4 + a / 400 - a / 100

/-- Days in year `y` before month `m`. -/
def daysBeforeMonth (y m : Nat) : Nat :=
  (List.range (m - 1)).foldl (fun acc i => acc + daysInMonth y (i + 1)) 0

/-- Python `datetime.toordinal`: day number of `y-m-d` with 0001-01-01 = 1. -/
def ymd2ord (y m d : Nat) : Nat :=
  daysBeforeYear y + daysBeforeMonth y m + d

/-- Search for the month containing day-of-year `n` (0-based): the largest
`m ≤ k` with `daysBeforeMonth y m ≤ n`. -/
def monthOfDayAux (y : Nat) (n : Nat) : Nat → Nat
  | 0 => 1
  | k + 1 => if daysBeforeMonth y (k + 1) ≤ n then k + 1 else monthOfDayAux y n k

/-- Inverse of `ymd2ord` (Python `datetime.fromordinal`), for ordinals ≥ 1. -/
def ord2ymd (nn : Nat) : Nat × Nat × Nat :=
  let n := nn - 1
  let n400 := n / 146097
  let n := n % 146097
  let n100 := n / 36524
  let n := n % 36524
  let n4 := n / 1461
  let n := n % 1461
  let n1 := n / 365
  let n := n % 365
  let year := n400 * 400 + n100 * 100 + n4 * 4 + n1 + 1
  if n1 = 4 ∨ n100 = 4 then (year - 1, 12, 31)
  else
    let m := monthOfDayAux year n 12
    (year, m, n - daysBeforeMonth year m + 1)

/-- Seconds since 0001-01-01T00:00:00 of a `PyDateTime`. -/
def PyDateTime.toSeconds (t : PyDateTime) : Int :=
  ((ymd2ord t.year t.month t.day : Int) - 1) * 86400
    + t.hour * 3600 + t.minute * 60 + t.second

/-- `PyDateTime` of a second count (inverse of `toSeconds`). -/
def PyDateTime.ofSeconds (x : Int) : PyDateTime :=
  let days := (x.ediv 86400).toNat
  let rem := (x.emod 86400).toNat
  let ymd := ord2ymd (days + 1)
  { year := ymd.1, month := ymd.2.1, day := ymd.2.2
    hour := rem / 3600, minute := rem % 3600 / 60, second := rem % 60 }

/-- Python `date + timedelta(hours=h)` on naive datetimes. -/
def PyDateTime.addHours (t : PyDateTime) (h : Int) : PyDateTime :=
  PyDateTime.ofSeconds (t.toSeconds + h * 3600)

namespace Highrise

/-- `Highrise.from_utc`: convert a date from UTC using the `_tzoffset`
value (`date + timedelta(hours=cls._tzoffset)`); the class-level
`_tzoffset` is the explicit `tz` argument. -/
def from_utc (tz : Int) (date : PyDateTime) : PyDateTime :=
  date.addHours tz

/-- `Highrise.to_utc`: convert a date to UTC using the `_tzoffset` value
(`date - timedelta(hours=cls._tzoffset)`). -/
def to_utc (tz : Int) (date : PyDateTime) : PyDateTime :=
  date.addHours (-tz)

end Highrise

/-- Parse one ASCII digit. -/
def digitVal (c : Char) : Option Nat :=
  if '0' ≤ c ∧ c ≤ '9' then some (c.toNat - 48) else none

/-- Two-digit field of the fixed wire timestamp format. -/
def twoDigits (a b : Char) : Option Nat := do
  let x ← digitVal a
  let y ← digitVal b
  pure (x * 10 + y)

/-- `datetime.strptime(s, '%Y-%m-%dT%H:%M:%SZ')` followed by the range
validation Python's `datetime` constructor performs.  We model the
canonical zero-padded form of the fixed format. -/
def strptimeWire (s : String) : Option PyDateTime :=
  match s.data with
  | [y1, y2, y3, y4, '-', m1, m2, '-', d1, d2, 'T',
     h1, h2, ':', n1, n2, ':', s1, s2, 'Z'] => do
    let yh ← twoDigits y1 y2
    let yl ← twoDigits y3 y4
    let mo ← twoDigits m1 m2
    let dy ← twoDigits d1 d2
    let hr ← twoDigits h1 h2
    let mi ← twoDigits n1 n2
    let sc ← twoDigits s1 s2
    let yr := yh * 100 + yl
    if 1 ≤ yr ∧ 1 ≤ mo ∧ mo ≤ 12 ∧ 1 ≤ dy ∧ dy ≤ daysInMonth yr mo ∧
        hr ≤ 23 ∧ mi ≤ 59 ∧ sc ≤ 59 then
      pure ⟨yr, mo, dy, hr, mi, sc⟩
    else none
  | _ => none

/-- Zero-pad a number to two digits. -/
def pad2 (n : Nat) : String :=
  if n < 10 then "0" ++ toString n else toString n

/-- Zero-pad a number to four digits. -/
def pad4 (n : Nat) : String :=
  if n < 10 then "000" ++ toString n
  else if n < 100 then "00" ++ toString n
  else if n < 1000 then "0" ++ toString n
  else toString n

/-- `datetime.strftime(t, '%Y-%m-%dT%H:%M:%SZ')`. -/
def strftimeWire (t : PyDateTime) : String :=
  pad4 t.year ++ "-" ++ pad2 t.month ++ "-" ++ pad2 t.day ++ "T" ++
    pad2 t.hour ++ ":" ++ pad2 t.minute ++ ":" ++ pad2 t.second ++ "Z"

/-- Python `str(datetime)` ('YYYY-MM-DD HH:MM:SS'). -/
def strOfDateTime (t : PyDateTime) : String :=
  pad4 t.year ++ "-" ++ pad2 t.month ++ "-" ++ pad2 t.day ++ " " ++
    pad2 t.hour ++ ":" ++ pad2 t.minute ++ ":" ++ pad2 t.second

/-- `int(s)` on a decimal literal: optional sign then digits (Python's
further tolerance for whitespace and underscores is not exercised by the
wire format). -/
def parsePyInt (s : String) : Option Int :=
  let digits (l : List Char) : Option Nat :=
    if l = [] then none
    else l.foldlM (fun acc c => (digitVal c).map fun d => acc * 10 + d) 0
  match s.data with
  | '-' :: rest => (digits rest).map fun n => -(n : Int)
  | '+' :: rest => (digits rest).map fun n => (n : Int)
  | l => (digits l).map fun n => (n : Int)

/-! ## Name conversion (`Highrise.key_to_class` / `Highrise.class_to_key`)

Both operate on Python `str`; we model them on `List Char` and wrap them
for `String`. -/

/-- Matches the regex `[A-Z]` used by `class_to_key`. -/
def isUpAZ (c : Char) : Bool := 'A' ≤ c && c ≤ 'Z'

/-- Python `str.capitalize()`: first character uppercased, the rest
lowercased. -/
def pyCapitalize : List Char → List Char
  | [] => []
  | c :: cs => c.toUpper :: cs.map Char.toLower

namespace Highrise

mutual

/-- The `while '-' in klass` loop of `key_to_class`, scanning left to
right.  The source repeatedly locates the first hyphen at index `ix`,
uppercases the character at `ix + 1` and deletes the hyphen
(`klass[0:ix] + klass[ix+1].upper() + klass[ix+2:]`), then rescans from
the start; since everything left of the first hyphen is hyphen-free this
equals the left-to-right scan below.  `none` models the `IndexError`
raised when a hyphen is the final character. -/
def key_to_class_go : List Char → Option (List Char)
  | [] => some []
  | c :: rest =>
    if c = '-' then key_to_class_hyphen rest
    else (key_to_class_go rest).map (c :: ·)

/-- State of the loop right after a hyphen: the next character is
uppercased in place; if that yields another hyphen (`'-'.upper() == '-'`)
the loop stays at this index. -/
def key_to_class_hyphen : List Char → Option (List Char)
  | [] => none
  | d :: rest =>
    if d.toUpper = '-' then key_to_class_hyphen rest
    else (key_to_class_go rest).map (d.toUpper :: ·)

end

end Highrise

/-- `Highrise.key_to_class` on character lists: `key.capitalize()` then
the hyphen-elimination loop. -/
def Highrise.key_to_classL (key : List Char) : Option (List Char) :=
  Highrise.key_to_class_go (pyCapitalize key)

/-- `Highrise.key_to_class` on strings. -/
def Highrise.key_to_class (key : String) : Option String :=
  (Highrise.key_to_classL key.data).map List.asString

/-- First character matched by `re.search(r'([A-Z])', key)`. -/
def findUpAZ : List Char → Option Char
  | [] => none
  | c :: rest => if isUpAZ c then some c else findUpAZ rest

/-- `key.replace(char, '-' + char.lower())`: every occurrence of `char`
becomes a hyphen followed by its lowercase form. -/
def replaceUp (ch : Char) (l : List Char) : List Char :=
  l.flatMap fun x => if x = ch then ['-', ch.toLower] else [x]

/-- Number of `[A-Z]` characters, the loop variant of `class_to_key`. -/
def countUpAZ (l : List Char) : Nat :=
  (l.filter isUpAZ).length

/-- The `while match:` loop of `class_to_key`, with an explicit budget.
Each iteration removes every occurrence of the first `[A-Z]` character
and introduces no new ones, so `countUpAZ l` iterations always reach the
fixed point (`class_to_key_loop_eq` below certifies this). -/
def class_to_key_loop : Nat → List Char → List Char
  | 0, l => l
  | n + 1, l =>
    match findUpAZ l with
    | none => l
    | some c => class_to_key_loop n (replaceUp c l)

/-- `Highrise.class_to_key` on character lists: run the replacement loop,
then drop the leading character (`key[1:]`). -/
def Highrise.class_to_keyL (key : List Char) : List Char :=
  (class_to_key_loop (countUpAZ key) key).drop 1

/-- `Highrise.class_to_key` on strings. -/
def Highrise.class_to_key (key : String) : String :=
  (Highrise.class_to_keyL key.data).asString

/-- Per-character effect of the whole `class_to_key` loop. -/
def expandUp (c : Char) : List Char :=
  if isUpAZ c then ['-', c.toLower] else [c]

/-! ## Schema registry -/

/-- The `HighriseObject` subclasses of the module that carry a `fields`
dictionary: the record kinds of the marshaller.  (`Message` and `Party`
are instantiable in the source even though they act as base classes.) -/
inductive Kind where
  | subjectField | tag | message | note | email | deal | task
  | contactData | emailAddress | phoneNumber | address | instantMessenger
  | twitterAccount | webAddress | subjectData | kase | party | person
  | company | user
deriving DecidableEq, Repr, Fintype

/-- Python class name of each kind (`cls.__name__`). -/
def Kind.className : Kind → String
  | .subjectField => "SubjectField"
  | .tag => "Tag"
  | .message => "Message"
  | .note => "Note"
  | .email => "Email"
  | .deal => "Deal"
  | .task => "Task"
  | .contactData => "ContactData"
  | .emailAddress => "EmailAddress"
  | .phoneNumber => "PhoneNumber"
  | .address => "Address"
  | .instantMessenger => "InstantMessenger"
  | .twitterAccount => "TwitterAccount"
  | .webAddress => "WebAddress"
  | .subjectData => "SubjectData"
  | .kase => "Case"
  | .party => "Party"
  | .person => "Person"
  | .company => "Company"
  | .user => "User"

/-- `getattr(sys.modules[__name__], name)` restricted to the record-kind
classes: the process-wide dispatch table used by `from_xml`.  Module
attributes that are not record kinds (`Highrise`, the exception classes,
`ContactDetail`, ...) would fail later anyway (`cls()` has no `fields`);
we model them, like a missing attribute, as a failed lookup. -/
def lookupClass (s : String) : Option Kind :=
  [Kind.subjectField, .tag, .message, .note, .email, .deal, .task,
   .contactData, .emailAddress, .phoneNumber, .address, .instantMessenger,
   .twitterAccount, .webAddress, .subjectData, .kase, .party, .person,
   .company, .user].find? (fun k => k.className = s)

/-- The duck-typed `type` slot of a `HighriseField`: the literal strings
`'id'` / `'uneditable'`, the Python builtins `str` / `int` / `bool` /
`list`, the `datetime` class, or another record class
(`HighriseField(type=ContactData)`). -/
inductive FType where
  | fid | funedit | fstr | fint | fbool | fdatetime | flist
  | fobj (k : Kind)
deriving DecidableEq, Repr

/-- `HighriseField.__init__` settings (`options` is stored but never read
by the marshalling logic). -/
structure HighriseField where
  type : FType := .funedit
  options : Option (List String) := none
  force_key : Option String := none
  extra_attrs : Option (List (String × String)) := none
deriving DecidableEq, Repr

/-- `HighriseField.is_editable`: `self.type not in ('id', 'uneditable')`. -/
def HighriseField.is_editable (f : HighriseField) : Bool :=
  match f.type with
  | .fid | .funedit => false
  | _ => true

/-! ## Runtime values and records -/

mutual

/-- A runtime field value of a Highrise object.  List values hold records
(`from_xml` only ever builds lists of `HighriseObject`s and `save_xml`
calls `item.save_xml` on every element). -/
inductive Value where
  | vnone
  | vint (n : Int)
  | vbool (b : Bool)
  | vstr (s : String)
  | vdatetime (d : PyDateTime)
  | vlist (items : List Record)
  | vobj (r : Record)

/-- A `HighriseObject` instance: its class plus `self.__dict__` restricted
to the declared fields, in insertion order.  (The `_server` entry set by
`__init__` is transport configuration that no marshalling code reads and
is omitted.) -/
inductive Record where
  | mk (klass : Kind) (fields : List (String × Value))

end

/-- The class of a record. -/
def Record.klass : Record → Kind
  | .mk k _ => k

/-- The field dictionary of a record. -/
def Record.fields : Record → List (String × Value)
  | .mk _ f => f

/-- Dictionary lookup (`d[k]` / `k in d`). -/
def lookupStr {α : Type} : List (String × α) → String → Option α
  | [], _ => none
  | (g, w) :: rest, f => if g = f then some w else lookupStr rest f

/-- Dictionary assignment `d[k] = v`: an existing key keeps its position,
a new key is appended (Python dict insertion order). -/
def setStr {α : Type} : List (String × α) → String → α → List (String × α)
  | [], f, v => [(f, v)]
  | (g, w) :: rest, f, v =>
    if g = f then (f, v) :: rest else (g, w) :: setStr rest f v

/-- `self.__dict__[key] = value` on a record. -/
def Record.setField : Record → String → Value → Record
  | .mk k flds, f, v => .mk k (setStr flds f v)

/-! ## The per-class `fields` dictionaries -/

/-- Base fields of `Message.__new__` (shared by `Note`; `Email` extends
them with `title`). -/
def messageFields : List (String × HighriseField) :=
  [("id", { type := .fid }),
   ("body", { type := .fstr }),
   ("author_id", {}),
   ("subject_id", { type := .fint }),
   ("subject_type", { type := .fstr, options := some ["Party", "Deal", "Kase"] }),
   ("subject_name", {}),
   ("collection_id", { type := .fint }),
   ("collection_type", { type := .fstr, options := some ["Deal", "Kase"] }),
   ("visible_to", { type := .fstr, options := some ["Everyone", "Owner", "NamedGroup"] }),
   ("owner_id", { type := .fint }),
   ("group_id", { type := .fint }),
   ("created_at", { type := .fdatetime }),
   ("updated_at", {})]

/-- Base fields of `Party.__new__` (shared by `Person` / `Company`, which
extend them). -/
def partyFields : List (String × HighriseField) :=
  [("id", { type := .fid }),
   ("background", { type := .fstr }),
   ("visible_to", { type := .fstr, options := some ["Everyone", "Owner", "NamedGroup"] }),
   ("owner_id", { type := .fint }),
   ("group_id", { type := .fint }),
   ("contact_data", { type := .fobj .contactData }),
   ("avatar_url", { type := .fstr }),
   ("author_id", {}),
   ("created_at", {}),
   ("updated_at", {})]

/-- The ordered `fields` dictionary of each record kind, transcribed from
the class bodies (and, for `Message`/`Party`/`User` subclasses, from the
dictionaries built in `__new__`). -/
def kindFields : Kind → List (String × HighriseField)
  | .subjectField =>
    [("id", { type := .fid }),
     ("label", {})]
  | .tag =>
    [("id", { type := .fid }),
     ("name", {})]
  | .message => messageFields
  | .note => messageFields
  | .email => messageFields ++ [("title", { type := .fstr })]
  | .deal =>
    [("id", { type := .fid }),
     ("account_id", {}),
     ("author_id", {}),
     ("background", { type := .fstr }),
     ("category_id", { type := .fint }),
     ("visible_to", { type := .fstr, options := some ["Everyone", "Owner", "NamedGroup"] }),
     ("owner_id", { type := .fint }),
     ("group_id", { type := .fint }),
     ("created_at", {}),
     ("updated_at", {}),
     ("currency", { type := .fstr }),
     ("duration", { type := .fint }),
     ("name", { type := .fstr }),
     ("price", { type := .fint }),
     ("price_type", { type := .fstr, options := some ["fixed", "hour", "month", "year"] }),
     ("responsible_party_id", { type := .fint }),
     ("status", { type := .fstr, options := some ["pending", "won", "lost"] }),
     ("status_changed_on", {}),
     ("parties", { type := .flist }),
     ("party", {}),
     ("party_id", { type := .fint })]
  | .task =>
    [("id", { type := .fid }),
     ("recording_id", { type := .fint }),
     ("subject_id", { type := .fint }),
     ("subject_type", { type := .fstr, options := some ["Party"] }),
     ("category_id", { type := .fint }),
     ("body", { type := .fstr }),
     ("frame", { type := .fstr, options := some ["specific"] }),
     ("due_at", { type := .fdatetime }),
     ("alert_at", { type := .fdatetime }),
     ("created_at", { type := .fdatetime }),
     ("author_id", { type := .fint }),
     ("updated_at", { type := .fdatetime }),
     ("public", { type := .fbool }),
     ("owner_id", { type := .fint }),
     ("notify", { type := .fbool })]
  | .contactData =>
    [("email_addresses", { type := .flist }),
     ("phone_numbers", { type := .flist }),
     ("addresses", { type := .flist }),
     ("instant_messengers", { type := .flist }),
     ("twitter_accounts", { type := .flist }),
     ("web_addresses", { type := .flist })]
  | .emailAddress =>
    [("id", { type := .fid }),
     ("address", { type := .fstr }),
     ("location", { type := .fstr, options := some ["Work", "Home", "Other"] })]
  | .phoneNumber =>
    [("id", { type := .fid }),
     ("number", { type := .fstr }),
     ("location", { type := .fstr, options := some ["Work", "Mobile", "Fax", "Pager", "Home", "Skype", "Other"] })]
  | .address =>
    [("id", { type := .fid }),
     ("city", { type := .fstr }),
     ("country", { type := .fstr }),
     ("state", { type := .fstr }),
     ("zip", { type := .fstr }),
     ("street", { type := .fstr }),
     ("location", { type := .fstr, options := some ["Work", "Home", "Other"] })]
  | .instantMessenger =>
    [("id", { type := .fid }),
     ("address", { type := .fstr }),
     ("protocol", { type := .fstr, options := some ["AIM", "MSN", "ICQ", "Jabber", "Yahoo", "Skype", "QQ", "Sametime", "Gadu-Gadu", "Google Talk", "other"] }),
     ("location", { type := .fstr, options := some ["Work", "Personal", "Other"] })]
  | .twitterAccount =>
    [("id", { type := .fid }),
     ("username", { type := .fstr }),
     ("location", { type := .fstr, options := some ["Work", "Personal", "Other"] })]
  | .webAddress =>
    [("id", { type := .fid }),
     ("url", { type := .fstr }),
     ("location", { type := .fstr, options := some ["Work", "Personal", "Other"] })]
  | .subjectData =>
    [("id", { type := .fid }),
     ("subject_field_id", { type := .fint, force_key := some "subject_field_id",
                            extra_attrs := some [("type", "integer")] }),
     ("subject_field_label", { type := .fstr }),
     ("value", { type := .fstr })]
  | .kase =>
    [("id", { type := .fid }),
     ("author_id", { type := .fint }),
     ("closed_at", { type := .fdatetime }),
     ("created_at", { type := .fdatetime }),
     ("updated_at", { type := .fdatetime }),
     ("name", { type := .fstr }),
     ("visible-to", { type := .fstr }),
     ("group_id", { type := .fint }),
     ("owner_id", { type := .fint }),
     ("parties", { type := .flist })]
  | .party => partyFields
  | .person =>
    partyFields ++
    [("first_name", { type := .fstr }),
     ("last_name", { type := .fstr }),
     ("title", { type := .fstr }),
     ("company_id", { type := .fint }),
     ("company_name", { type := .fstr }),
     ("subject_datas", { type := .flist, force_key := some "subject_datas",
                         extra_attrs := some [("type", "array")] })]
  | .company =>
    partyFields ++
    [("name", { type := .fstr }),
     ("subject_datas", { type := .flist, force_key := some "subject_datas",
                         extra_attrs := some [("type", "array")] })]
  | .user =>
    [("id", { type := .fid }),
     ("name", { type := .fstr }),
     ("email_address", { type := .fstr }),
     ("created_at", {}),
     ("updated_at", {}),
     ("admin", { type := .fbool })]

/-! ## `HighriseField.default`

`default` is a property: every access re-evaluates it, so `datetime.now()`
and the freshly constructed record of an object-typed field are new on
every read.  The explicit `now` parameter stands for the clock at the
moment of the access.

The only object-typed field in the whole registry is
`Party.contact_data` (type `ContactData`), and `ContactData`'s own fields
are all list-typed, so evaluating a default recurses at most one level;
`scalarDefault` handles the base level and `defaultNoNested` certifies
that the `.vnone` placeholder for a nested object default is never
reached. -/

/-- Default of a non-object field type: `None` for `'id'`/`'uneditable'`,
`datetime.now()` for `datetime`, `self.type()` otherwise. -/
def scalarDefault (now : PyDateTime) : FType → Option Value
  | .fid => some .vnone
  | .funedit => some .vnone
  | .fstr => some (.vstr "")
  | .fint => some (.vint 0)
  | .fbool => some (.vbool false)
  | .fdatetime => some (.vdatetime now)
  | .flist => some (.vlist [])
  | .fobj _ => none

/-- `HighriseField.default` for a field of type `t`, evaluated at clock
`now`: for an object type it is a freshly constructed instance of that
class, whose own fields take their (non-object) defaults. -/
def fieldDefault (now : PyDateTime) (t : FType) : Value :=
  match t with
  | .fobj k =>
    .vobj (.mk k ((kindFields k).map fun p =>
      (p.1, (scalarDefault now p.2.type).getD .vnone)))
  | t => (scalarDefault now t).getD .vnone

/-- A freshly constructed record `cls()`: every declared field set to its
default (this is `HighriseObject.__init__` with no keyword arguments,
which never raises). -/
def freshRecord (now : PyDateTime) (k : Kind) : Record :=
  .mk k ((kindFields k).map fun p => (p.1, fieldDefault now p.2.type))

/-! ## `HighriseObject.__init__` (manual construction) -/

/-- The `for field, settings in self.fields.items()` loop of `__init__`:
a supplied keyword value must be editable or a
`KeyError('{} is not an editable attribute')` is raised; otherwise the
default is used.  Keyword arguments that are not declared fields are
never looked at. -/
def initFields (now : PyDateTime) :
    List (String × HighriseField) → List (String × Value) →
      Except String (List (String × Value))
  | [], _ => .ok []
  | (f, s) :: rest, kwargs =>
    match lookupStr kwargs f with
    | some v =>
      if s.is_editable then
        (initFields now rest kwargs).map ((f, v) :: ·)
      else
        .error (f ++ " is not an editable attribute")
    | none => (initFields now rest kwargs).map ((f, fieldDefault now s.type) :: ·)

/-- `HighriseObject.__init__`: build a record of kind `k` from keyword
arguments. -/
def HighriseObject.init (now : PyDateTime) (k : Kind)
    (kwargs : List (String × Value)) : Except String Record :=
  (initFields now (kindFields k) kwargs).map (Record.mk k)

/-! ## Wire elements (`xml.etree.ElementTree.Element`) -/

/-- A parsed wire element: tag, attribute dictionary, text content (the
text before the first child; `none` models Python `None`), and the
ordered child elements. -/
inductive XmlElem where
  | mk (tag : String) (attrib : List (String × String))
      (text : Option String) (children : List XmlElem)

/-- The tag of an element. -/
def XmlElem.tag : XmlElem → String
  | .mk t _ _ _ => t

/-- The attribute dictionary of an element. -/
def XmlElem.attrib : XmlElem → List (String × String)
  | .mk _ a _ _ => a

/-- The text of an element. -/
def XmlElem.text : XmlElem → Option String
  | .mk _ _ x _ => x

/-- The child elements of an element. -/
def XmlElem.children : XmlElem → List XmlElem
  | .mk _ _ _ c => c

/-- `element.get(key)`: attribute lookup. -/
def XmlElem.get (e : XmlElem) (k : String) : Option String :=
  lookupStr e.attrib k

/-- `element.find(tag)`: first direct child with the given tag. -/
def XmlElem.find (e : XmlElem) (t : String) : Option XmlElem :=
  e.children.find? (fun c => c.tag = t)

/-- An element with one more child appended at the end. -/
def XmlElem.appendChild (e c : XmlElem) : XmlElem :=
  .mk e.tag e.attrib e.text (e.children ++ [c])

/-- `tag.replace('-', '_')`. -/
def underscored (s : String) : String :=
  ⟨s.data.map fun c => if c = '-' then '_' else c⟩

/-- `tag.replace('_', '-')`. -/
def hyphenated (s : String) : String :=
  ⟨s.data.map fun c => if c = '_' then '-' else c⟩

/-! ## `HighriseObject.from_xml` (decode) -/

/-- The Python exceptions `from_xml` can raise, plus stack exhaustion. -/
inductive DecodeErr where
  /-- `getattr(sys.modules[__name__], name)` found no such class
  (`AttributeError`), or `child.find('type')` returned `None` and `.text`
  was taken of it (`AttributeError`). -/
  | attrError (name : String)
  /-- `xml.get('type')` returned `None` and was passed to `getattr`, or a
  `<party>` item's `<type>` child had no text (`TypeError`). -/
  | typeError
  /-- `int(text)` failed (`ValueError`). -/
  | badInt (text : String)
  /-- `strptime` failed (`ValueError`). -/
  | badDatetime (text : String)
  /-- `key_to_class` indexed past the end of the key (`IndexError`). -/
  | indexError
  /-- Python `RecursionError`: the model's stack budget ran out. -/
  | stackOverflow
deriving DecidableEq, Repr

/-- Step 1 of `from_xml`: `if cls == Party: cls = getattr(sys.modules
[__name__], xml.get('type'))` — the polymorphic dispatch on the `type`
discriminator attribute. -/
def resolveCls (k : Kind) (e : XmlElem) : Except DecodeErr Kind :=
  if k = .party then
    match e.get "type" with
    | none => .error .typeError
    | some s =>
      match lookupClass s with
      | none => .error (.attrError s)
      | some k2 => .ok k2
  else .ok k

/-- Resolve the class used to decode one item of a list-valued child:
`<party>` items read their `<type>` child, every other tag goes through
`key_to_class(item.tag.replace('_', '-'))`; the result is looked up in
the module dispatch table. -/
def itemClass (item : XmlElem) : Except DecodeErr Kind := do
  let name ←
    if item.tag = "party" then
      match item.find "type" with
      | none => .error (.attrError "type")
      | some tEl =>
        match tEl.text with
        | none => .error .typeError
        | some s => .ok s
    else
      match Highrise.key_to_class (hyphenated item.tag) with
      | none => .error .indexError
      | some s => .ok s
  match lookupClass name with
  | none => .error (.attrError name)
  | some k => .ok k

/-- Like `itemClass` but for a single-object child, which does *not*
hyphenate the tag first (`Highrise.key_to_class(child.tag)`). -/
def childClass (child : XmlElem) : Except DecodeErr Kind := do
  let name ←
    if child.tag = "party" then
      match child.find "type" with
      | none => .error (.attrError "type")
      | some tEl =>
        match tEl.text with
        | none => .error .typeError
        | some s => .ok s
    else
      match Highrise.key_to_class child.tag with
      | none => .error .indexError
      | some s => .ok s
  match lookupClass name with
  | none => .error (.attrError name)
  | some k => .ok k

/-- Scalar leaf coercion of `from_xml`: dispatch on the `type` attribute
(`integer` / `datetime` / anything else is passed through as text). -/
def decodeScalar (tz : Int) (child : XmlElem) (text : String) :
    Except DecodeErr Value :=
  match child.get "type" with
  | some "integer" =>
    match parsePyInt text with
    | none => .error (.badInt text)
    | some n => .ok (.vint n)
  | some "datetime" =>
    match strptimeWire text with
    | none => .error (.badDatetime text)
    | some d => .ok (.vdatetime (Highrise.from_utc tz d))
  | _ => .ok (.vstr text)

/-- The body of the `for child in xml` loop of `from_xml`, processing one
direct child of the wire element against the record built so far.  The
recursive decodes (`contact-data`, nested objects, list items) go through
the `deeper` continuation, which is `from_xml` at the remaining stack
budget. -/
def processChild (tz : Int) (now : PyDateTime)
    (deeper : Kind → XmlElem → Except DecodeErr Record) (cls : Kind)
    (r : Record) (child : XmlElem) : Except DecodeErr Record :=
  let key := underscored child.tag
  match lookupStr (kindFields cls) key with
  | none => .ok r
  | some settings =>
    match child.text with
    | none => .ok (r.setField key (fieldDefault now settings.type))
    | some text =>
      if key = "contact_data" then
        (deeper .contactData child).map fun cd =>
          r.setField "contact_data" (.vobj cd)
      else
        match child.children with
        | _ :: _ =>
          if settings.type = .flist then
            (child.children.mapM fun item =>
              (itemClass item).bind fun k => deeper k item).map fun items =>
            r.setField (underscored child.tag) (.vlist items)
          else
            (childClass child).bind fun k =>
            (deeper k child).map fun obj =>
            r.setField (underscored child.tag) (.vobj obj)
        | [] =>
          (decodeScalar tz child text).map fun v => r.setField key v

/-- `HighriseObject.from_xml`: decode a wire element into a record of
kind `k` (after polymorphic resolution).  The `parent` argument of the
source is threaded but never read and is omitted.  The `Nat` budget
bounds the recursion depth (the Python call stack). -/
def HighriseObject.from_xml (tz : Int) (now : PyDateTime) :
    Nat → Kind → XmlElem → Except DecodeErr Record
  | 0, _, _ => .error .stackOverflow
  | fuel + 1, k, e =>
    (resolveCls k e).bind fun cls =>
      e.children.foldlM
        (processChild tz now (HighriseObject.from_xml tz now fuel) cls)
        (freshRecord now cls)

/-! ## `HighriseObject.save_xml` (encode) -/

/-- Python `==` between a stored field value and a freshly evaluated
`HighriseField.default` (the only `==` in `save_xml`).  Scalars compare
by value (with `bool` comparing equal to `0`/`1` as in Python);
`HighriseObject`s have no `__eq__` so they compare by identity, and a
freshly constructed default object is never identical to a stored one;
lists compare elementwise, which against the `[]` default means an
emptiness check. -/
def pyEqDefault : Value → Value → Bool
  | .vnone, .vnone => true
  | .vint a, .vint b => a = b
  | .vint a, .vbool b => a = (if b then 1 else 0)
  | .vbool a, .vint b => (if a then (1 : Int) else 0) = b
  | .vbool a, .vbool b => a = b
  | .vstr a, .vstr b => a = b
  | .vdatetime a, .vdatetime b => a = b
  | .vlist a, .vlist b => a.isEmpty && b.isEmpty
  | _, _ => false

/-- `text_type(value)` (`str`) for the values the source stringifies: the
`id` leaf and the `isinstance(value, int)` branch.  The representation of
composite values is never used by the marshaller and is not modelled
precisely. -/
def pyStr : Value → String
  | .vnone => "None"
  | .vint n => toString n
  | .vbool b => if b then "True" else "False"
  | .vstr s => s
  | .vdatetime d => strOfDateTime d
  | .vlist _ => "[...]"
  | .vobj _ => "<HighriseObject>"

/-- The body of one iteration of the `for field, settings in
self.fields.items()` loop of `save_xml`, producing the element this field
contributes: `some none` when the iteration `continue`s without emitting
(missing, uneditable, default-valued, or an empty list), `some (some e)`
when it builds an element, `none` when a recursive encode exhausted the
stack.  `deeper` performs the recursive `value.save_xml(include_id=True)`
calls. -/
def fieldElem (tz : Int) (now : PyDateTime)
    (deeper : Record → Option XmlElem) (extraAttrs : List (String × String))
    (flds : List (String × Value)) (fs : String × HighriseField) :
    Option (Option XmlElem) :=
  let field := fs.1
  let settings := fs.2
  match lookupStr flds field with
  | none => some none
  | some value =>
    if ¬ settings.is_editable then some none
    else if pyEqDefault value (fieldDefault now settings.type) then some none
    else
      match value with
      | .vobj r2 => (deeper r2).map some
      | value =>
        let field_name :=
          match settings.force_key with
          | some fk => fk
          | none => hyphenated field
        let eattrs :=
          match settings.extra_attrs with
          | some ea => ea
          | none => extraAttrs
        match value with
        | .vint n => some (some (.mk field_name eattrs (some (toString n)) []))
        | .vbool b =>
          some (some (.mk field_name eattrs (some (pyStr (.vbool b))) []))
        | .vlist [] => some none
        | .vlist items =>
          (items.foldlM (fun acc item => (deeper item).map (· :: acc)) []).map
            fun subs => some (.mk field_name eattrs none subs)
        | .vdatetime d =>
          some (some (.mk field_name eattrs
            (some (strftimeWire (Highrise.to_utc tz d))) []))
        | .vstr s => some (some (.mk field_name eattrs (some s) []))
        | _ => some (some (.mk field_name eattrs none []))

/-- One iteration of the field loop acting on the child list built so
far: an emitted element is inserted at position 0 (`xml.insert(0, e)`),
i.e. consed on. -/
def emitField (tz : Int) (now : PyDateTime)
    (deeper : Record → Option XmlElem) (extraAttrs : List (String × String))
    (flds : List (String × Value)) (children : List XmlElem)
    (fs : String × HighriseField) : Option (List XmlElem) :=
  (fieldElem tz now deeper extraAttrs flds fs).map fun oe =>
    match oe with
    | none => children
    | some e => e :: children

/-- `HighriseObject.save_xml`: encode a record as a wire element.
`base_element` and `extra_attrs` are the keyword overrides; the root tag
defaults to `class_to_key` of the class name, except that
`SubjectData.save_xml` always forces `'subject_data'`.  If the `id` field
is present and non-`None` and `include_id` is set, the integer-typed `id`
leaf is appended first; every subsequently emitted field element is
inserted at position 0, in front of it. -/
def HighriseObject.save_xml (tz : Int) (now : PyDateTime) :
    Nat → Bool → Option String → List (String × String) → Record →
      Option XmlElem
  | 0, _, _, _, _ => none
  | fuel + 1, include_id, base_element, extra_attrs, r =>
    let tag :=
      if r.klass = .subjectData then "subject_data"
      else
        match base_element with
        | some b => b
        | none => Highrise.class_to_key r.klass.className
    let children0 : List XmlElem :=
      if include_id then
        match lookupStr r.fields "id" with
        | none => []
        | some .vnone => []
        | some v => [.mk "id" [("type", "integer")] (some (pyStr v)) []]
      else []
    ((kindFields r.klass).foldlM
        (emitField tz now
          (HighriseObject.save_xml tz now fuel true none []) extra_attrs
          r.fields)
        children0).map
      fun children => .mk tag [] none children

/-- A fixed clock used by the concrete fixtures. -/
def epoch : PyDateTime := ⟨1970, 1, 1, 0, 0, 0⟩

/-! ## C1 fixtures: a `ContactData` with two embedded `EmailAddress`es -/

/-- First embedded record of the C1 fixture. -/
def emailOne : Record :=
  .mk .emailAddress
    [("id", .vnone), ("address", .vstr "a@one.com"), ("location", .vstr "Work")]

/-- Second embedded record of the C1 fixture. -/
def emailTwo : Record :=
  .mk .emailAddress
    [("id", .vnone), ("address", .vstr "b@two.com"), ("location", .vstr "Home")]

/-- A `ContactData` whose `email_addresses` list holds the two embedded
records, in order. -/
def contactTwo : Record :=
  .mk .contactData
    [("email_addresses", .vlist [emailOne, emailTwo]),
     ("phone_numbers", .vlist []), ("addresses", .vlist []),
     ("instant_messengers", .vlist []), ("twitter_accounts", .vlist []),
     ("web_addresses", .vlist [])]

/-- What `save_xml(include_id=True)` produces for `emailOne`: no id child
(the id is `None`), the two non-default fields in reverse schema order,
no text anywhere. -/
def encOne : XmlElem :=
  .mk "email-address" [] none
    [.mk "location" [] (some "Work") [], .mk "address" [] (some "a@one.com") []]

/-- The encoding of `emailTwo`. -/
def encTwo : XmlElem :=
  .mk "email-address" [] none
    [.mk "location" [] (some "Home") [], .mk "address" [] (some "b@two.com") []]

/-- The wire element `save_xml` produces for `contactTwo`: the list child
holds the two item encodings in *reverse* order. -/
def contactTwoWire : XmlElem :=
  .mk "contact-data" [] none
    [.mk "email-addresses" [] none [encTwo, encOne]]

/-! ## C2: the naming round-trip

A "hyphenated lowercase ASCII wire key" is a nonempty sequence of
nonempty lowercase-letter segments joined by single hyphens; we
represent it by its segment list. -/

/-- The lowercase ASCII letters. -/
def lowerAZ : List Char := "abcdefghijklmnopqrstuvwxyz".data

/-- Every character a wire key or a camel-case class name built from one
can contain (also after intermediate replacement steps). -/
def nameChars : List Char :=
  ("abcdefghijklmnopqrstuvwxyz" ++ "ABCDEFGHIJKLMNOPQRSTUVWXYZ" ++ "-").data

/-- The segment lists standing for valid hyphenated lowercase wire
keys. -/
@[reducible] def validSegs (segs : List (List Char)) : Prop :=
  segs ≠ [] ∧ ∀ seg ∈ segs, seg ≠ [] ∧ ∀ c ∈ seg, c ∈ lowerAZ

/-- The wire key of a segment list: segments joined by single hyphens. -/
def keyOfSegs : List (List Char) → List Char
  | [] => []
  | seg :: rest => seg ++ (rest.map (fun s => '-' :: s)).flatten

/-- A segment with its first letter uppercased. -/
def capSeg : List Char → List Char
  | [] => []
  | c :: cs => c.toUpper :: cs

/-- The camel-case name `key_to_class` produces from a valid key: each
segment capitalized, concatenated. -/
def camelOfSegs (segs : List (List Char)) : List Char :=
  (segs.map capSeg).flatten

/-- The capitalized key before the hyphen-elimination loop runs. -/
def capStr : List (List Char) → List Char
  | [] => []
  | seg :: rest => capSeg seg ++ (rest.map (fun s => '-' :: s)).flatten

/-! ## First facts about the embedding -/

/-- No field type nested inside an object-typed field is itself
object-typed, so the `.getD .vnone` fallback inside `fieldDefault` is
never taken: the layered definition agrees with the source's recursion. -/
theorem defaultNoNested :
    ∀ k k' p, p ∈ kindFields k → p.2.type = FType.fobj k' →
      ∀ q, q ∈ kindFields k' → (scalarDefault ⟨1, 1, 1, 0, 0, 0⟩ q.2.type).isSome := by
  decide

/-- `cls()` never raises and produces exactly the fresh record. -/
theorem init_no_kwargs (now : PyDateTime) (k : Kind) :
    HighriseObject.init now k [] = .ok (freshRecord now k) := by
  cases k <;> rfl

/-! ## Supporting lemmas -/

/-- A successful `emitField` step leaves the previous children as a
suffix. -/
theorem emitField_suffix_step {tz : Int} {now : PyDateTime}
    {deeper : Record → Option XmlElem} {ea : List (String × String)}
    {flds : List (String × Value)} {children out : List XmlElem}
    {fs : String × HighriseField}
    (h : emitField tz now deeper ea flds children fs = some out) :
    ∃ p, out = p ++ children := by
  unfold emitField at h
  cases he : fieldElem tz now deeper ea flds fs with
  | none => rw [he] at h; exact absurd h (by simp)
  | some oe =>
    rw [he] at h
    cases oe with
    | none => exact ⟨[], by simpa using h.symm⟩
    | some e =>
      refine ⟨[e], ?_⟩
      simpa using h.symm

/-- A successful run of the whole field loop leaves the initial children
(in particular the `id` element) as a suffix of the final child list. -/
theorem emitField_suffix {tz : Int} {now : PyDateTime}
    {deeper : Record → Option XmlElem} {ea : List (String × String)}
    {flds : List (String × Value)} :
    ∀ (sch : List (String × HighriseField)) (children out : List XmlElem),
      sch.foldlM (emitField tz now deeper ea flds) children = some out →
      ∃ p, out = p ++ children := by
  intro sch
  induction sch with
  | nil =>
    intro children out h
    simp only [List.foldlM_nil] at h
    exact ⟨[], by simpa using h.symm⟩
  | cons fs rest ih =>
    intro children out h
    rw [List.foldlM_cons] at h
    cases he : emitField tz now deeper ea flds children fs with
    | none => rw [he] at h; exact absurd h (by simp)
    | some mid =>
      rw [he] at h
      obtain ⟨p1, hp1⟩ := emitField_suffix_step he
      obtain ⟨p2, hp2⟩ := ih mid out h
      exact ⟨p2 ++ p1, by rw [hp2, hp1, List.append_assoc]⟩

/-! ## Claims -/

/-- C6: with the timezone offset configured to +2 hours, decoding a
scalar leaf with `type="datetime"` and text `2024-01-01T10:00:00Z`
(here as the `due-at` field of a task element) yields the in-memory
timestamp 2024-01-01T12:00:00, and encoding a record holding that value
back produces a leaf with wire text `2024-01-01T10:00:00Z`. -/
theorem timestamp_offset_example :
    ((HighriseObject.from_xml 2 epoch 3 .task
        (.mk "task" [] none
          [.mk "due-at" [("type", "datetime")] (some "2024-01-01T10:00:00Z") []])).map
      fun r => lookupStr r.fields "due_at")
      = .ok (some (.vdatetime ⟨2024, 1, 1, 12, 0, 0⟩))
    ∧ (HighriseObject.save_xml 2 epoch 2 false none []
        ((freshRecord epoch .task).setField "due_at"
          (.vdatetime ⟨2024, 1, 1, 12, 0, 0⟩))).map XmlElem.children
      = some [.mk "due-at" [] (some "2024-01-01T10:00:00Z") []] :=
  ⟨rfl, rfl⟩

/-- C3 counterexample: a freshly constructed `Person` (all fields at
their defaults, clock unchanged between construction and encoding)
encodes with `include_id` to an element that has a `contact-data` child
— not only the id child and not childless: `Party.contact_data`'s
default is a freshly constructed `ContactData`, which compares by
identity and is therefore never equal to the default evaluated again at
encode time. -/
theorem fresh_person_encodes_contact_data :
    HighriseObject.save_xml 0 epoch 2 true none [] (freshRecord epoch .person)
      = some (.mk "person" [] none [.mk "contact-data" [] none []])
    ∧ "contact-data" ≠ "id" :=
  ⟨rfl, by decide⟩

/-- C3 (amended): encoding a freshly constructed record yields a wire
element with no children at all — the id of a fresh record is always
`None`, so no id child appears even when requested — provided the clock
at encode time equals the construction clock (`datetime`-typed defaults
re-evaluate `datetime.now()`) and the kind is not one of the `Party`
kinds, whose object-typed `contact_data` default always re-encodes as an
empty child element. -/
theorem fresh_record_encodes_childless (fuel : Nat) (tz : Int)
    (now : PyDateTime) (k : Kind)
    (hp : k ≠ .party) (hpe : k ≠ .person) (hc : k ≠ .company) :
    (HighriseObject.save_xml tz now (fuel + 1) true none []
        (freshRecord now k)).map XmlElem.children = some [] := by
  cases k with
  | party => exact absurd rfl hp
  | person => exact absurd rfl hpe
  | company => exact absurd rfl hc
  | _ =>
    simp [HighriseObject.save_xml, freshRecord, kindFields, messageFields,
      emitField, fieldElem, lookupStr, fieldDefault, scalarDefault,
      HighriseField.is_editable, pyEqDefault, Record.klass, Record.fields,
      XmlElem.children]

/-- Witness for C3 (amended) at a concrete kind. -/
theorem fresh_record_encodes_childless_witness :
    Kind.task ≠ .party ∧ Kind.task ≠ .person ∧ Kind.task ≠ .company ∧
    (HighriseObject.save_xml 0 epoch 1 true none []
        (freshRecord epoch .task)).map XmlElem.children = some [] :=
  ⟨by decide, by decide, by decide,
   fresh_record_encodes_childless 0 0 epoch .task
     (by decide) (by decide) (by decide)⟩

/-- C5 counterexample: on an `EmailAddress` record with id 5 and two
non-default field values, `save_xml(include_id=True)` puts the id leaf
*last*: the id is appended first (`SubElement`), but every subsequently
emitted field element is inserted at position 0, in front of it, so the
first child is the `location` element, not `id`. -/
theorem id_not_first_child :
    HighriseObject.save_xml 0 epoch 1 true none []
        (.mk .emailAddress
          [("id", .vint 5), ("address", .vstr "a@x.com"),
           ("location", .vstr "Work")])
      = some (.mk "email-address" [] none
          [.mk "location" [] (some "Work") [],
           .mk "address" [] (some "a@x.com") [],
           .mk "id" [("type", "integer")] (some "5") []])
    ∧ "location" ≠ "id" :=
  ⟨rfl, by decide⟩

/-- C5 (amended): when `save_xml` is called with `include_id` on a record
whose id field is present and non-null, the id leaf — named `id`, with
attribute `type="integer"` and the decimal identifier as text — is the
*last* child of the resulting element (it is created first and every
other emitted field element is inserted in front of it). -/
theorem id_emitted_last (fuel : Nat) (tz : Int) (now : PyDateTime)
    (base : Option String) (ea : List (String × String)) (r : Record)
    (v : Value) (hid : lookupStr r.fields "id" = some v) (hv : v ≠ .vnone)
    (x : XmlElem)
    (hx : HighriseObject.save_xml tz now (fuel + 1) true base ea r = some x) :
    x.children.getLast?
      = some (.mk "id" [("type", "integer")] (some (pyStr v)) []) := by
  have hx2 : ((kindFields r.klass).foldlM
      (emitField tz now (HighriseObject.save_xml tz now fuel true none []) ea
        r.fields)
      [XmlElem.mk "id" [("type", "integer")] (some (pyStr v)) []]).map
        (fun children => XmlElem.mk
          (if r.klass = .subjectData then "subject_data"
           else match base with
                | some b => b
                | none => Highrise.class_to_key r.klass.className)
          [] none children) = some x := by
    rw [← hx]
    show _ = (HighriseObject.save_xml tz now (fuel + 1) true base ea r)
    unfold HighriseObject.save_xml
    rw [hid]
    cases v
    case vnone => exact absurd rfl hv
    all_goals rfl
  cases hfold : (kindFields r.klass).foldlM
      (emitField tz now (HighriseObject.save_xml tz now fuel true none []) ea
        r.fields)
      [XmlElem.mk "id" [("type", "integer")] (some (pyStr v)) []] with
  | none => rw [hfold] at hx2; simp at hx2
  | some children =>
    rw [hfold] at hx2
    obtain ⟨p, hp⟩ := emitField_suffix _ _ _ hfold
    simp only [Option.map, Option.some.injEq] at hx2
    rw [← hx2]
    show children.getLast? = _
    rw [hp]
    exact List.getLast?_concat p

/-- Witness for C5 (amended): the theorem applied to the concrete record
of the counterexample. -/
theorem id_emitted_last_witness :
    lookupStr (Record.mk .emailAddress
        [("id", .vint 5), ("address", .vstr "a@x.com"),
         ("location", .vstr "Work")]).fields "id" = some (.vint 5)
    ∧ (Value.vint 5 ≠ .vnone)
    ∧ HighriseObject.save_xml 0 epoch 1 true none []
        (.mk .emailAddress
          [("id", .vint 5), ("address", .vstr "a@x.com"),
           ("location", .vstr "Work")])
      = some (.mk "email-address" [] none
          [.mk "location" [] (some "Work") [],
           .mk "address" [] (some "a@x.com") [],
           .mk "id" [("type", "integer")] (some "5") []])
    ∧ (XmlElem.mk "email-address" [] none
          [.mk "location" [] (some "Work") [],
           .mk "address" [] (some "a@x.com") [],
           .mk "id" [("type", "integer")] (some "5") []]).children.getLast?
      = some (.mk "id" [("type", "integer")] (some (pyStr (.vint 5))) []) := by
  refine ⟨rfl, ?_, rfl, ?_⟩
  · intro h; cases h
  · exact id_emitted_last 0 0 epoch none []
      (.mk .emailAddress
        [("id", .vint 5), ("address", .vstr "a@x.com"),
         ("location", .vstr "Work")]) (.vint 5) rfl
      (by intro h; cases h) _ rfl

/-- Looking up a key right after setting it returns the new value. -/
theorem lookupStr_setStr_self {α : Type} :
    ∀ (l : List (String × α)) (f : String) (v : α),
      lookupStr (setStr l f v) f = some v := by
  intro l f v
  induction l with
  | nil => simp [setStr, lookupStr]
  | cons p rest ih =>
    by_cases h : p.1 = f
    · simp [setStr, lookupStr, h]
    · simp [setStr, lookupStr, h, ih]

/-- A successful `mapM` over `Except` preserves the length. -/
theorem mapM_ok_length {ε α β : Type} (f : α → Except ε β) :
    ∀ (l : List α) (out : List β), l.mapM f = .ok out → out.length = l.length := by
  intro l
  induction l with
  | nil =>
    intro out h
    simp only [List.mapM_nil] at h
    cases h
    rfl
  | cons a rest ih =>
    intro out h
    rw [List.mapM_cons] at h
    cases hf : f a with
    | error e => rw [hf] at h; simp [Bind.bind, Except.bind] at h
    | ok b =>
      rw [hf] at h
      cases hr : rest.mapM f with
      | error e =>
        rw [hr] at h
        simp [Bind.bind, Except.bind, Pure.pure] at h
      | ok bs =>
        rw [hr] at h
        simp [Bind.bind, Except.bind, Pure.pure, Except.pure] at h
        rw [← h]
        simp [ih bs hr]

/-- `fields` of a record after `setField`. -/
theorem Record.fields_setField (r : Record) (f : String) (v : Value) :
    (r.setField f v).fields = setStr r.fields f v := by
  cases r; rfl

/-- `setField` does not change the class of a record. -/
theorem Record.klass_setField (r : Record) (f : String) (v : Value) :
    (r.setField f v).klass = r.klass := by
  cases r; rfl

/-- C4 (amended): in `from_xml`'s child loop, a declared direct child is
set to its `FieldSpec` default exactly when its *text* is `None` — the
source checks `child.text is None` before looking at sub-children, so
this happens even for a child that has sub-children.  The nested-decode
path (an ordered list of recursively decoded records for a list-typed
field, a single recursively decoded record otherwise) requires the child
to have text as well as sub-children (and not be the special-cased
`contact-data` key). -/
theorem decode_child_default_rule (tz : Int) (now : PyDateTime)
    (deeper : Kind → XmlElem → Except DecodeErr Record) (cls : Kind)
    (r : Record) (child : XmlElem) (s : HighriseField)
    (hdecl : lookupStr (kindFields cls) (underscored child.tag) = some s) :
    (child.text = none →
      processChild tz now deeper cls r child
        = .ok (r.setField (underscored child.tag) (fieldDefault now s.type)))
    ∧ (∀ t r2, child.text = some t → underscored child.tag ≠ "contact_data" →
        child.children ≠ [] →
        processChild tz now deeper cls r child = .ok r2 →
        ∃ v, lookupStr r2.fields (underscored child.tag) = some v ∧
          (s.type = .flist → ∃ items, v = .vlist items ∧
              items.length = child.children.length) ∧
          (s.type ≠ .flist → ∃ obj, v = .vobj obj)) := by
  constructor
  · intro htext
    unfold processChild
    simp only [hdecl, htext]
  · intro t r2 htext hkey hkids hok
    unfold processChild at hok
    simp only [hdecl, htext] at hok
    rw [if_neg hkey] at hok
    split at hok
    case _ heq =>
      by_cases hty : s.type = .flist
      · rw [if_pos hty] at hok
        cases hmap : child.children.mapM
            (fun item => (itemClass item).bind fun k => deeper k item) with
        | error e => rw [hmap] at hok; simp [Except.map] at hok
        | ok items =>
          rw [hmap] at hok
          simp only [Except.map, Except.ok.injEq] at hok
          refine ⟨.vlist items, ?_, ?_, ?_⟩
          · rw [← hok, Record.fields_setField]
            exact lookupStr_setStr_self _ _ _
          · intro _
            exact ⟨items, rfl, mapM_ok_length _ _ _ hmap⟩
          · intro h; exact absurd hty h
      · rw [if_neg hty] at hok
        cases hcc : childClass child with
        | error e => rw [hcc] at hok; simp [Bind.bind, Except.bind] at hok
        | ok k2 =>
          rw [hcc] at hok
          simp only [Except.bind] at hok
          cases hd : deeper k2 child with
          | error e =>
            rw [hd] at hok
            simp [Bind.bind, Except.bind, Except.map] at hok
          | ok obj =>
            rw [hd] at hok
            simp only [Bind.bind, Except.bind, Except.map,
              Except.ok.injEq] at hok
            refine ⟨.vobj obj, ?_, ?_, ?_⟩
            · rw [← hok, Record.fields_setField]
              exact lookupStr_setStr_self _ _ _
            · intro h; exact absurd h hty
            · intro _; exact ⟨obj, rfl⟩
    case _ heq => exact absurd heq hkids

/-- Witness for C4 (amended) at a concrete child with no text but one
sub-child: the field is set to its default. -/
theorem decode_child_default_rule_witness :
    lookupStr (kindFields .contactData)
        (underscored (XmlElem.mk "email-addresses" [] none
          [.mk "email-address" [] (some " ") []]).tag)
      = some { type := .flist }
    ∧ ((XmlElem.mk "email-addresses" [] none
          [.mk "email-address" [] (some " ") []]).text = none →
        processChild 0 epoch (HighriseObject.from_xml 0 epoch 3) .contactData
          (freshRecord epoch .contactData)
          (.mk "email-addresses" [] none [.mk "email-address" [] (some " ") []])
          = .ok ((freshRecord epoch .contactData).setField
              (underscored (XmlElem.mk "email-addresses" [] none
                [.mk "email-address" [] (some " ") []]).tag)
              (fieldDefault epoch FType.flist))) := by
  refine ⟨rfl, ?_⟩
  exact (decode_child_default_rule 0 epoch (HighriseObject.from_xml 0 epoch 3)
    .contactData (freshRecord epoch .contactData)
    (.mk "email-addresses" [] none [.mk "email-address" [] (some " ") []])
    { type := .flist } rfl).1

/-- C4 counterexample: decoding a `contact-data` element whose
`email-addresses` child has *no text* but one well-formed sub-child sets
the field to its default `[]` — the sub-child is never decoded, because
the `child.text is None` check fires before the sub-children check. -/
theorem child_with_subchildren_decodes_to_default :
    ((HighriseObject.from_xml 0 epoch 3 .contactData
        (.mk "contact-data" [] (some "\n")
          [.mk "email-addresses" [] none
            [.mk "email-address" [] (some " ") []]])).map
      fun r => lookupStr r.fields "email_addresses")
      = .ok (some (.vlist []))
    ∧ (XmlElem.mk "email-addresses" [] none
        [.mk "email-address" [] (some " ") []]).children ≠ [] := by
  refine ⟨rfl, ?_⟩
  intro h
  simp [XmlElem.children] at h

/-- If a non-editable declared field is supplied, the `__init__` field
loop raises (with the message of the first offending field in schema
order), whatever the supplied value is. -/
theorem initFields_error (now : PyDateTime) (kwargs : List (String × Value))
    (f : String) :
    ∀ (sch : List (String × HighriseField)) (s : HighriseField),
      lookupStr sch f = some s → s.is_editable = false →
      (lookupStr kwargs f).isSome →
      ∃ msg, initFields now sch kwargs = .error msg := by
  intro sch
  induction sch with
  | nil => intro s h; simp [lookupStr] at h
  | cons p rest ih =>
    intro s hdecl hne hsup
    obtain ⟨g, s0⟩ := p
    obtain ⟨v, hv⟩ := Option.isSome_iff_exists.mp hsup
    by_cases hg : g = f
    · subst hg
      have hs0 : s0 = s := by simpa [lookupStr] using hdecl
      subst hs0
      exact ⟨g ++ " is not an editable attribute", by simp [initFields, hv, hne]⟩
    · have hdecl2 : lookupStr rest f = some s := by
        simpa [lookupStr, hg] using hdecl
      obtain ⟨msg, hrec⟩ := ih s hdecl2 hne hsup
      cases hk : lookupStr kwargs g with
      | none => exact ⟨msg, by simp [initFields, hk, hrec, Except.map]⟩
      | some w =>
        by_cases he : s0.is_editable
        · exact ⟨msg, by simp [initFields, hk, he, hrec, Except.map]⟩
        · exact ⟨g ++ " is not an editable attribute",
            by simp [initFields, hk, he]⟩

/-- C7: constructing a record while supplying a value for a declared
field whose `HighriseField` is not editable (type `'id'` or
`'uneditable'`) raises — the `KeyError('{} is not an editable
attribute')` that plays the role of the spec's `ImmutableFieldError` —
whatever the supplied value is. -/
theorem immutable_field_raises (now : PyDateTime) (k : Kind)
    (kwargs : List (String × Value)) (f : String) (s : HighriseField)
    (hdecl : lookupStr (kindFields k) f = some s)
    (hne : s.is_editable = false) (hsup : (lookupStr kwargs f).isSome) :
    ∃ msg, HighriseObject.init now k kwargs = .error msg := by
  obtain ⟨msg, h⟩ := initFields_error now kwargs f (kindFields k) s hdecl hne hsup
  exact ⟨msg, by unfold HighriseObject.init; rw [h]; rfl⟩

/-- Witness for C7: supplying `id` (declared with type `'id'`) to the
`Tag` constructor raises, even with a `None` value. -/
theorem immutable_field_raises_witness :
    lookupStr (kindFields .tag) "id" = some { type := .fid }
    ∧ HighriseField.is_editable { type := .fid } = false
    ∧ (lookupStr [("id", Value.vnone)] "id").isSome
    ∧ ∃ msg, HighriseObject.init epoch .tag [("id", Value.vnone)] = .error msg := by
  refine ⟨rfl, rfl, rfl, ?_⟩
  exact immutable_field_raises epoch .tag [("id", Value.vnone)] "id"
    { type := .fid } rfl rfl rfl

/-- When every supplied declared field is editable, the field loop
succeeds and assigns, in schema order, the supplied value where one was
given and the field default otherwise. -/
theorem initFields_ok (now : PyDateTime) (kwargs : List (String × Value)) :
    ∀ (sch : List (String × HighriseField)),
      (∀ p, p ∈ sch → (lookupStr kwargs p.1).isSome →
        p.2.is_editable = true) →
      initFields now sch kwargs = .ok (sch.map fun p =>
        (p.1, match lookupStr kwargs p.1 with
              | some v => v
              | none => fieldDefault now p.2.type)) := by
  intro sch
  induction sch with
  | nil => intro _; rfl
  | cons p rest ih =>
    intro h
    obtain ⟨g, s0⟩ := p
    have hrest := ih (fun q hq hs => h q (List.mem_cons_of_mem _ hq) hs)
    cases hk : lookupStr kwargs g with
    | none => simp [initFields, hk, hrest, Except.map]
    | some v =>
      have he : s0.is_editable = true :=
        h (g, s0) (List.mem_cons_self _ _) (by rw [hk]; rfl)
      simp [initFields, hk, he, hrest, Except.map]

/-- C10: after the keyword constructor returns, every declared field of
the kind's schema is set, in schema order — to the supplied value when
one was given, to its `FieldSpec` default otherwise; keyword arguments
whose names are not declared fields set nothing and raise nothing. -/
theorem init_sets_every_field (now : PyDateTime) (k : Kind)
    (kwargs : List (String × Value))
    (h : ∀ p, p ∈ kindFields k → (lookupStr kwargs p.1).isSome →
      p.2.is_editable = true) :
    HighriseObject.init now k kwargs = .ok (.mk k ((kindFields k).map fun p =>
      (p.1, match lookupStr kwargs p.1 with
            | some v => v
            | none => fieldDefault now p.2.type))) := by
  unfold HighriseObject.init
  rw [initFields_ok now kwargs (kindFields k) h]
  rfl

/-- Witness for C10: an `EmailAddress` built with a value for `address`
and an undeclared keyword `bogus`; construction succeeds, `address`
carries the supplied value, `location` its default, and `bogus` sets no
field. -/
theorem init_sets_every_field_witness :
    (∀ p, p ∈ kindFields .emailAddress →
      (lookupStr [("address", Value.vstr "a@x.com"), ("bogus", Value.vint 1)]
        p.1).isSome → p.2.is_editable = true)
    ∧ HighriseObject.init epoch .emailAddress
        [("address", Value.vstr "a@x.com"), ("bogus", Value.vint 1)]
      = .ok (.mk .emailAddress ((kindFields .emailAddress).map fun p =>
          (p.1, match lookupStr
              [("address", Value.vstr "a@x.com"), ("bogus", Value.vint 1)] p.1 with
            | some v => v
            | none => fieldDefault epoch p.2.type))) := by
  refine ⟨by decide, ?_⟩
  exact init_sets_every_field epoch .emailAddress
    [("address", Value.vstr "a@x.com"), ("bogus", Value.vint 1)] (by decide)

/-- Appending a child changes neither tag, attributes, text, nor the
attribute lookups of an element. -/
theorem XmlElem.get_appendChild (e c : XmlElem) (k : String) :
    (e.appendChild c).get k = e.get k := by
  cases e; rfl

/-- The children of an element with one more child appended. -/
theorem XmlElem.children_appendChild (e c : XmlElem) :
    (e.appendChild c).children = e.children ++ [c] := by
  cases e; rfl

/-- Polymorphic resolution only reads the `type` attribute, so an extra
child does not change it. -/
theorem resolveCls_appendChild (k : Kind) (e c : XmlElem) :
    resolveCls k (e.appendChild c) = resolveCls k e := by
  unfold resolveCls
  rw [XmlElem.get_appendChild]

/-- C8: appending one extra well-formed child whose normalized tag is
not a declared field of the resolved kind leaves decoding unchanged:
the unknown child is skipped silently (`continue`), it never errors and
never changes any field value — at every stack budget, for every
element. -/
theorem unknown_field_tolerance (fuel : Nat) (tz : Int) (now : PyDateTime)
    (k : Kind) (e c : XmlElem)
    (h : ∀ k2, resolveCls k e = .ok k2 →
      lookupStr (kindFields k2) (underscored c.tag) = none) :
    HighriseObject.from_xml tz now fuel k (e.appendChild c)
      = HighriseObject.from_xml tz now fuel k e := by
  cases fuel with
  | zero => rfl
  | succ n =>
    show (resolveCls k (e.appendChild c)).bind _ = (resolveCls k e).bind _
    rw [resolveCls_appendChild]
    cases hres : resolveCls k e with
    | error err => rfl
    | ok cls =>
      simp only [Except.bind]
      rw [XmlElem.children_appendChild, List.foldlM_append]
      cases hfold : e.children.foldlM
          (processChild tz now (HighriseObject.from_xml tz now n) cls)
          (freshRecord now cls) with
      | error err => simp [hfold, Bind.bind, Except.bind]
      | ok r =>
        simp only [hfold, Bind.bind, Except.bind, List.foldlM_cons,
          List.foldlM_nil]
        show (processChild tz now _ cls r c).bind _ = _
        unfold processChild
        simp only [h cls hres]
        rfl

/-- Witness for C8: a `tag` element with a `name` child plus an
undeclared `bogus` child decodes exactly as without it. -/
theorem unknown_field_tolerance_witness :
    (∀ k2, resolveCls .tag (.mk "tag" [] (some "\n")
        [.mk "name" [] (some "hello") []]) = .ok k2 →
      lookupStr (kindFields k2)
        (underscored (XmlElem.mk "bogus" [] (some "1") []).tag) = none)
    ∧ HighriseObject.from_xml 0 epoch 2 .tag
        ((XmlElem.mk "tag" [] (some "\n")
          [.mk "name" [] (some "hello") []]).appendChild
            (.mk "bogus" [] (some "1") []))
      = HighriseObject.from_xml 0 epoch 2 .tag
          (.mk "tag" [] (some "\n") [.mk "name" [] (some "hello") []]) := by
  refine ⟨?_, ?_⟩
  · intro k2 hk2
    cases hk2
    rfl
  · exact unknown_field_tolerance 2 0 epoch .tag _ _
      (by intro k2 hk2; cases hk2; rfl)

/-- A successful dictionary lookup means the key is present. -/
theorem lookupStr_mem_keys {α : Type} :
    ∀ (l : List (String × α)) (f : String) (v : α),
      lookupStr l f = some v → f ∈ l.map Prod.fst := by
  intro l f v
  induction l with
  | nil => intro h; simp [lookupStr] at h
  | cons p rest ih =>
    intro h
    by_cases hp : p.1 = f
    · simp [hp]
    · simp only [lookupStr, if_neg hp] at h
      simp [ih h]

/-- Assigning to a present key does not change the key sequence. -/
theorem setStr_keys_of_mem {α : Type} :
    ∀ (l : List (String × α)) (f : String) (v : α),
      f ∈ l.map Prod.fst → (setStr l f v).map Prod.fst = l.map Prod.fst := by
  intro l f v
  induction l with
  | nil => intro h; simp at h
  | cons p rest ih =>
    intro h
    by_cases hp : p.1 = f
    · obtain ⟨g, w⟩ := p
      simp only at hp
      simp [setStr, hp]
    · obtain ⟨g, w⟩ := p
      simp only at hp
      simp only [List.map_cons, List.mem_cons] at h
      rcases h with h | h
      · exact absurd h.symm hp
      · simp [setStr, hp, ih h]

/-- One decode-loop step preserves the field-key sequence (declared
fields are only ever overwritten, all of them being present on the fresh
record) and the class of the record. -/
theorem processChild_keys (tz : Int) (now : PyDateTime)
    (deeper : Kind → XmlElem → Except DecodeErr Record) (cls : Kind)
    (r : Record) (child : XmlElem) (r2 : Record)
    (hk : r.fields.map Prod.fst = (kindFields cls).map Prod.fst)
    (hok : processChild tz now deeper cls r child = .ok r2) :
    r2.fields.map Prod.fst = (kindFields cls).map Prod.fst
      ∧ r2.klass = r.klass := by
  have hset : ∀ key v s, lookupStr (kindFields cls) key = some s →
      (r.setField key v).fields.map Prod.fst = (kindFields cls).map Prod.fst
      ∧ (r.setField key v).klass = r.klass := by
    intro key v s hl
    refine ⟨?_, Record.klass_setField r key v⟩
    rw [Record.fields_setField, setStr_keys_of_mem _ _ _ ?_, hk]
    rw [hk]
    exact lookupStr_mem_keys _ _ _ hl
  unfold processChild at hok
  cases hlook : lookupStr (kindFields cls) (underscored child.tag) with
  | none =>
    simp only [hlook] at hok
    cases hok
    exact ⟨hk, rfl⟩
  | some settings =>
    simp only [hlook] at hok
    cases htext : child.text with
    | none =>
      simp only [htext] at hok
      cases hok
      exact hset _ _ _ hlook
    | some text =>
      simp only [htext] at hok
      by_cases hkey : underscored child.tag = "contact_data"
      · rw [if_pos hkey] at hok
        cases hd : deeper .contactData child with
        | error e => rw [hd] at hok; simp [Except.map] at hok
        | ok cd =>
          rw [hd] at hok
          simp only [Except.map] at hok
          cases hok
          exact hset "contact_data" _ settings (hkey ▸ hlook)
      · rw [if_neg hkey] at hok
        cases hcs : child.children with
        | nil =>
          simp only [hcs] at hok
          cases ds : decodeScalar tz child text with
          | error e => rw [ds] at hok; simp [Except.map] at hok
          | ok v =>
            rw [ds] at hok
            simp only [Except.map] at hok
            cases hok
            exact hset _ _ _ hlook
        | cons c0 cs0 =>
          simp only [hcs] at hok
          by_cases hty : settings.type = .flist
          · rw [if_pos hty] at hok
            cases hm : (c0 :: cs0).mapM
                (fun item => (itemClass item).bind fun k => deeper k item) with
            | error e => rw [hm] at hok; simp [Except.map] at hok
            | ok items =>
              rw [hm] at hok
              simp only [Except.map] at hok
              cases hok
              exact hset _ _ _ hlook
          · rw [if_neg hty] at hok
            cases hcc : childClass child with
            | error e => rw [hcc] at hok; simp [Except.bind] at hok
            | ok k2 =>
              rw [hcc] at hok
              simp only [Except.bind] at hok
              cases hd : deeper k2 child with
              | error e => rw [hd] at hok; simp [Except.map] at hok
              | ok obj =>
                rw [hd] at hok
                simp only [Except.map] at hok
                cases hok
                exact hset _ _ _ hlook

/-- The whole decode loop preserves the field-key sequence and the
class. -/
theorem foldlM_processChild_keys (tz : Int) (now : PyDateTime)
    (deeper : Kind → XmlElem → Except DecodeErr Record) (cls : Kind) :
    ∀ (cs : List XmlElem) (r0 r : Record),
      r0.fields.map Prod.fst = (kindFields cls).map Prod.fst →
      cs.foldlM (processChild tz now deeper cls) r0 = .ok r →
      r.fields.map Prod.fst = (kindFields cls).map Prod.fst
        ∧ r.klass = r0.klass := by
  intro cs
  induction cs with
  | nil =>
    intro r0 r h0 hf
    simp only [List.foldlM_nil, pure, Except.pure, Except.ok.injEq] at hf
    rw [← hf]
    exact ⟨h0, rfl⟩
  | cons c rest ih =>
    intro r0 r h0 hf
    rw [List.foldlM_cons] at hf
    cases hp : processChild tz now deeper cls r0 c with
    | error e => rw [hp] at hf; simp [Bind.bind, Except.bind] at hf
    | ok r1 =>
      rw [hp] at hf
      simp only [Bind.bind, Except.bind] at hf
      obtain ⟨h1k, h1c⟩ := processChild_keys tz now deeper cls r0 c r1 h0 hp
      obtain ⟨h2k, h2c⟩ := ih r1 r h1k hf
      exact ⟨h2k, h2c.trans h1c⟩

/-- The fresh record has exactly the schema's keys. -/
theorem freshRecord_keys (now : PyDateTime) (k : Kind) :
    (freshRecord now k).fields.map Prod.fst = (kindFields k).map Prod.fst := by
  simp [freshRecord, Record.fields, List.map_map, Function.comp]

/-- A successful decode yields a record whose class is the resolved kind
and whose fields are exactly that kind's declared fields. -/
theorem from_xml_keys (tz : Int) (now : PyDateTime) (fuel : Nat) (k : Kind)
    (e : XmlElem) (r : Record)
    (h : HighriseObject.from_xml tz now fuel k e = .ok r) :
    ∃ cls, resolveCls k e = .ok cls ∧ r.klass = cls
      ∧ r.fields.map Prod.fst = (kindFields cls).map Prod.fst := by
  cases fuel with
  | zero => exact absurd h (by simp [HighriseObject.from_xml])
  | succ n =>
    have h2 : (resolveCls k e).bind _ = .ok r := h
    cases hres : resolveCls k e with
    | error err => rw [hres] at h2; simp [Except.bind] at h2
    | ok cls =>
      rw [hres] at h2
      simp only [Except.bind] at h2
      obtain ⟨hkeys, hklass⟩ := foldlM_processChild_keys tz now
        (HighriseObject.from_xml tz now n) cls e.children
        (freshRecord now cls) r (freshRecord_keys now cls) h2
      exact ⟨cls, rfl, by rw [hklass]; rfl, hkeys⟩

/-- C9: decoding a wire element whose static kind is the abstract
`Party` base and whose `type` discriminator attribute is `Person`
proceeds exactly as decoding with static kind `Person` — the concrete
class is looked up from the discriminator in the module dispatch table —
and any record it produces has class `Person` and `Person`'s declared
fields, not the `Party` base. -/
theorem polymorphic_resolution (fuel : Nat) (tz : Int) (now : PyDateTime)
    (e : XmlElem) (h : e.get "type" = some "Person") :
    HighriseObject.from_xml tz now fuel .party e
      = HighriseObject.from_xml tz now fuel .person e
    ∧ ∀ r, HighriseObject.from_xml tz now fuel .party e = .ok r →
        r.klass = .person
        ∧ r.fields.map Prod.fst = (kindFields .person).map Prod.fst := by
  have hres : resolveCls .party e = .ok .person := by
    unfold resolveCls
    rw [if_pos rfl, h]
    rfl
  constructor
  · cases fuel with
    | zero => rfl
    | succ n =>
      show (resolveCls .party e).bind _ = (resolveCls .person e).bind _
      rw [hres]
      rfl
  · intro r hok
    obtain ⟨cls, hcls, hklass, hkeys⟩ := from_xml_keys tz now fuel .party e r hok
    rw [hres] at hcls
    cases hcls
    exact ⟨hklass, hkeys⟩

/-- Witness for C9 at a concrete empty `party` element carrying the
`Person` discriminator. -/
theorem polymorphic_resolution_witness :
    (XmlElem.mk "party" [("type", "Person")] none []).get "type" = some "Person"
    ∧ (HighriseObject.from_xml 0 epoch 1 .party
          (.mk "party" [("type", "Person")] none [])
        = HighriseObject.from_xml 0 epoch 1 .person
            (.mk "party" [("type", "Person")] none [])
      ∧ ∀ r, HighriseObject.from_xml 0 epoch 1 .party
            (.mk "party" [("type", "Person")] none []) = .ok r →
          r.klass = .person
          ∧ r.fields.map Prod.fst = (kindFields .person).map Prod.fst) :=
  ⟨rfl, polymorphic_resolution 1 0 epoch (.mk "party" [("type", "Person")] none []) rfl⟩

/-- C1 counterexample: encoding `contactTwo` (list field `[emailOne,
emailTwo]`) produces a list child whose children are `[encTwo, encOne]`
— the *reverse* of the in-memory order (`insert(0, ...)` per item), with
`encOne ≠ encTwo` — and decoding the produced element back yields an
`email_addresses` list that is *empty*, not the two records: the list
child carries no text, so `from_xml`'s `child.text is None` check resets
the field to its default. -/
theorem list_field_roundtrip_cx :
    HighriseObject.save_xml 0 epoch 3 true none [] contactTwo
      = some contactTwoWire
    ∧ contactTwoWire.children
      = [.mk "email-addresses" [] none [encTwo, encOne]]
    ∧ encOne ≠ encTwo
    ∧ ((HighriseObject.from_xml 0 epoch 5 .contactData contactTwoWire).map
        fun r => lookupStr r.fields "email_addresses")
      = .ok (some (.vlist [])) := by
  refine ⟨rfl, rfl, ?_, rfl⟩
  intro h
  simp [encOne, encTwo] at h

/-- C1 (amended): encoding a record whose list-of-records field holds
two embedded records produces a wire element whose list child contains
exactly the two encoded children in *reverse* of the in-memory order;
decoding that element back (`from_xml`) yields a record whose list field
is reset to the empty-list default — the whole record equals a freshly
constructed one — because the list child carries no text. -/
theorem list_field_roundtrip :
    HighriseObject.save_xml 0 epoch 3 true none [] contactTwo
      = some contactTwoWire
    ∧ HighriseObject.save_xml 0 epoch 2 true none [] emailOne = some encOne
    ∧ HighriseObject.save_xml 0 epoch 2 true none [] emailTwo = some encTwo
    ∧ HighriseObject.from_xml 0 epoch 5 .contactData contactTwoWire
      = .ok (freshRecord epoch .contactData) :=
  ⟨rfl, rfl, rfl, rfl⟩

/-- Facts about the 26 lowercase letters, checked by evaluation. -/
theorem lower_char_facts :
    ∀ c ∈ lowerAZ, c.toUpper.toLower = c ∧ isUpAZ c.toUpper = true ∧
      c.toUpper ≠ '-' ∧ c.toLower = c ∧ c ≠ '-' ∧ isUpAZ c = false ∧
      c.toUpper ∈ nameChars ∧ c ∈ nameChars := by decide

/-- Facts about the 53 name characters, checked by evaluation. -/
theorem name_char_facts :
    ∀ c ∈ nameChars,
      (isUpAZ c = true → c.toLower ∈ lowerAZ ∧ isUpAZ c.toLower = false ∧
        c.toLower ∈ nameChars ∧ c.toLower.toUpper = c) ∧
      ('-' : Char) ∈ nameChars ∧ isUpAZ '-' = false := by decide

/-- `findUpAZ` returns an `[A-Z]` character of the list. -/
theorem findUpAZ_some :
    ∀ (l : List Char) (c : Char), findUpAZ l = some c →
      isUpAZ c = true ∧ c ∈ l := by
  intro l
  induction l with
  | nil => intro c h; simp [findUpAZ] at h
  | cons x rest ih =>
    intro c h
    unfold findUpAZ at h
    by_cases hx : isUpAZ x
    · rw [if_pos hx] at h
      cases h
      exact ⟨hx, List.mem_cons_self _ _⟩
    · rw [if_neg hx] at h
      obtain ⟨h1, h2⟩ := ih c h
      exact ⟨h1, List.mem_cons_of_mem _ h2⟩

/-- When `findUpAZ` finds nothing, no character is in `[A-Z]`. -/
theorem findUpAZ_none :
    ∀ (l : List Char), findUpAZ l = none → ∀ c ∈ l, isUpAZ c = false := by
  intro l
  induction l with
  | nil => intro _ c hc; simp at hc
  | cons x rest ih =>
    intro h c hc
    unfold findUpAZ at h
    by_cases hx : isUpAZ x
    · rw [if_pos hx] at h; cases h
    · rw [if_neg hx] at h
      rcases List.mem_cons.mp hc with rfl | hc2
      · exact Bool.not_eq_true _ ▸ (by simpa using hx)
      · exact ih h c hc2

/-- Lists without `[A-Z]` characters are fixed by `expandUp`. -/
theorem flatMap_expandUp_of_noUp :
    ∀ (l : List Char), (∀ c ∈ l, isUpAZ c = false) →
      l.flatMap expandUp = l := by
  intro l
  induction l with
  | nil => intro _; rfl
  | cons x rest ih =>
    intro h
    have hx : isUpAZ x = false := h x (List.mem_cons_self _ _)
    rw [List.flatMap_cons, show expandUp x = [x] by simp [expandUp, hx],
      ih (fun c hc => h c (List.mem_cons_of_mem _ hc))]
    rfl

/-- Counting `[A-Z]` characters. -/
theorem countUpAZ_cons (x : Char) (l : List Char) :
    countUpAZ (x :: l) = (if isUpAZ x then 1 else 0) + countUpAZ l := by
  unfold countUpAZ
  by_cases hx : isUpAZ x
  · simp [List.filter_cons, hx, Nat.add_comm]
  · simp [List.filter_cons, hx]

/-- Replacing every occurrence of an `[A-Z]` character by hyphen plus its
lowercase form strictly decreases the `[A-Z]` count when it occurs. -/
theorem countUpAZ_replaceUp (c : Char) (hc : isUpAZ c = true)
    (hcl : isUpAZ c.toLower = false) :
    ∀ (l : List Char), countUpAZ (replaceUp c l) ≤ countUpAZ l ∧
      (c ∈ l → countUpAZ (replaceUp c l) < countUpAZ l) := by
  intro l
  induction l with
  | nil => exact ⟨Nat.le_refl _, by simp⟩
  | cons x rest ih =>
    have hrepl : replaceUp c (x :: rest)
        = (if x = c then ['-', c.toLower] else [x]) ++ replaceUp c rest := by
      simp [replaceUp, List.flatMap_cons]
    have hcount_app : ∀ (a b : List Char),
        countUpAZ (a ++ b) = countUpAZ a + countUpAZ b := by
      intro a b
      unfold countUpAZ
      simp [List.filter_append]
    by_cases hx : x = c
    · subst hx
      rw [hrepl, if_pos rfl, hcount_app]
      have h2 : countUpAZ ['-', x.toLower] = 0 := by
        unfold countUpAZ
        simp [List.filter, hcl, show isUpAZ '-' = false from rfl]
      rw [h2, countUpAZ_cons, if_pos hc]
      have hle := ih.1
      exact ⟨by omega, fun _ => by omega⟩
    · rw [hrepl, if_neg hx, hcount_app]
      have h1 : countUpAZ [x] = (if isUpAZ x then 1 else 0) := by
        unfold countUpAZ
        by_cases hxx : isUpAZ x <;> simp [List.filter, hxx]
      rw [h1, countUpAZ_cons]
      have hle := ih.1
      constructor
      · omega
      · intro hmem
        rcases List.mem_cons.mp hmem with h | h
        · exact absurd h.symm hx
        · have := ih.2 h; omega

/-- `replaceUp` does not change the final expansion. -/
theorem flatMap_expandUp_replaceUp (c : Char) (hc : isUpAZ c = true)
    (hcl : isUpAZ c.toLower = false) :
    ∀ (l : List Char),
      (replaceUp c l).flatMap expandUp = l.flatMap expandUp := by
  intro l
  induction l with
  | nil => rfl
  | cons x rest ih =>
    have hrepl : replaceUp c (x :: rest)
        = (if x = c then ['-', c.toLower] else [x]) ++ replaceUp c rest := by
      simp [replaceUp, List.flatMap_cons]
    rw [hrepl, List.flatMap_append, ih, List.flatMap_cons]
    congr 1
    by_cases hx : x = c
    · subst hx
      rw [if_pos rfl]
      simp [expandUp, hc, hcl, show isUpAZ '-' = false from rfl]
    · rw [if_neg hx]
      simp

/-- `replaceUp` keeps characters inside the name alphabet. -/
theorem replaceUp_nameChars (c : Char) (hc : c ∈ nameChars)
    (hcu : isUpAZ c = true) (l : List Char) (hl : ∀ x ∈ l, x ∈ nameChars) :
    ∀ x ∈ replaceUp c l, x ∈ nameChars := by
  intro x hx
  unfold replaceUp at hx
  rw [List.mem_flatMap] at hx
  obtain ⟨y, hy, hxy⟩ := hx
  by_cases hyc : y = c
  · rw [if_pos hyc] at hxy
    simp only [List.mem_cons, List.mem_singleton, List.not_mem_nil,
      or_false] at hxy
    rcases hxy with rfl | rfl
    · exact ((name_char_facts c hc).2).1
    · exact (((name_char_facts c hc).1) hcu).2.2.1
  · rw [if_neg hyc] at hxy
    simp only [List.mem_cons, List.not_mem_nil, or_false] at hxy
    rw [hxy]
    exact hl y hy

/-- The `class_to_key` replacement loop, run with its `[A-Z]`-count as
budget, computes the per-character expansion: this certifies that the
budgeted model reaches the loop's fixed point. -/
theorem class_to_key_loop_eq :
    ∀ (n : Nat) (l : List Char), (∀ c ∈ l, c ∈ nameChars) →
      countUpAZ l ≤ n → class_to_key_loop n l = l.flatMap expandUp := by
  intro n
  induction n with
  | zero =>
    intro l hchar hcount
    have hz : countUpAZ l = 0 := Nat.le_zero.mp hcount
    have hnoup : ∀ c ∈ l, isUpAZ c = false := by
      intro c hc
      by_contra hup
      have : c ∈ l.filter isUpAZ :=
        List.mem_filter.mpr ⟨hc, by simpa using hup⟩
      unfold countUpAZ at hz
      rw [List.length_eq_zero] at hz
      rw [hz] at this
      simp at this
    rw [flatMap_expandUp_of_noUp l hnoup]
    rfl
  | succ m ih =>
    intro l hchar hcount
    unfold class_to_key_loop
    cases hf : findUpAZ l with
    | none =>
      show l = l.flatMap expandUp
      rw [flatMap_expandUp_of_noUp l (findUpAZ_none l hf)]
    | some c =>
      show class_to_key_loop m (replaceUp c l) = l.flatMap expandUp
      obtain ⟨hcu, hcmem⟩ := findUpAZ_some l c hf
      have hcname : c ∈ nameChars := hchar c hcmem
      have hcl : isUpAZ c.toLower = false :=
        (((name_char_facts c hcname).1) hcu).2.1
      have hlt := (countUpAZ_replaceUp c hcu hcl l).2 hcmem
      rw [ih (replaceUp c l) (replaceUp_nameChars c hcname hcu l hchar)
        (by omega)]
      exact flatMap_expandUp_replaceUp c hcu hcl l

/-- Lowercase-only lists are fixed by `expandUp`. -/
theorem flatMap_expandUp_of_lower (l : List Char)
    (h : ∀ c ∈ l, c ∈ lowerAZ) : l.flatMap expandUp = l :=
  flatMap_expandUp_of_noUp l fun c hc =>
    ((lower_char_facts c (h c hc)).2.2.2.2.2.1)

/-- Expanding a capitalized lowercase segment prepends a hyphen and
restores the segment. -/
theorem flatMap_expandUp_capSeg (seg : List Char) (hne : seg ≠ [])
    (h : ∀ c ∈ seg, c ∈ lowerAZ) :
    (capSeg seg).flatMap expandUp = '-' :: seg := by
  cases seg with
  | nil => exact absurd rfl hne
  | cons c cs =>
    have hc := lower_char_facts c (h c (List.mem_cons_self _ _))
    rw [capSeg, List.flatMap_cons,
      show expandUp c.toUpper = ['-', c] by
        simp [expandUp, hc.2.1, hc.1],
      flatMap_expandUp_of_lower cs
        (fun x hx => h x (List.mem_cons_of_mem _ hx))]
    rfl

/-- Expanding a camel-case name of a valid key restores the hyphenated
key, with one leading hyphen. -/
theorem flatMap_expandUp_camel :
    ∀ (segs : List (List Char)), segs ≠ [] →
      (∀ seg ∈ segs, seg ≠ [] ∧ ∀ c ∈ seg, c ∈ lowerAZ) →
      (camelOfSegs segs).flatMap expandUp = '-' :: keyOfSegs segs := by
  intro segs
  induction segs with
  | nil => intro h; exact absurd rfl h
  | cons seg rest ih =>
    intro _ hv
    obtain ⟨hne, hlow⟩ := hv seg (List.mem_cons_self _ _)
    have hcap := flatMap_expandUp_capSeg seg hne hlow
    cases rest with
    | nil =>
      show ((List.map capSeg [seg]).flatten).flatMap expandUp
        = '-' :: keyOfSegs [seg]
      simp only [List.map_cons, List.map_nil, List.flatten_cons,
        List.flatten_nil, List.append_nil, hcap]
      simp [keyOfSegs]
    | cons seg2 rest2 =>
      have hrest : (camelOfSegs (seg2 :: rest2)).flatMap expandUp
          = '-' :: keyOfSegs (seg2 :: rest2) :=
        ih (by simp) (fun q hq => hv q (List.mem_cons_of_mem _ hq))
      show ((List.map capSeg (seg :: seg2 :: rest2)).flatten).flatMap
          expandUp = _
      rw [List.map_cons, List.flatten_cons, List.flatMap_append, hcap,
        show (List.map capSeg (seg2 :: rest2)).flatten
          = camelOfSegs (seg2 :: rest2) from rfl, hrest]
      simp [keyOfSegs]

/-- Characters of a camel-case name of a valid key lie in the name
alphabet. -/
theorem camel_nameChars (segs : List (List Char))
    (hv : ∀ seg ∈ segs, seg ≠ [] ∧ ∀ c ∈ seg, c ∈ lowerAZ) :
    ∀ c ∈ camelOfSegs segs, c ∈ nameChars := by
  intro c hc
  unfold camelOfSegs at hc
  rw [List.mem_flatten] at hc
  obtain ⟨l, hl, hcl⟩ := hc
  rw [List.mem_map] at hl
  obtain ⟨seg, hseg, rfl⟩ := hl
  obtain ⟨hne, hlow⟩ := hv seg hseg
  cases seg with
  | nil => exact absurd rfl hne
  | cons d ds =>
    rw [capSeg] at hcl
    rcases List.mem_cons.mp hcl with rfl | h
    · exact (lower_char_facts d (hlow d (List.mem_cons_self _ _))).2.2.2.2.2.2.1
    · exact (lower_char_facts c
        (hlow c (List.mem_cons_of_mem _ h))).2.2.2.2.2.2.2

/-- The hyphen-elimination loop copies a hyphen-free prefix verbatim. -/
theorem key_to_class_go_append (p q : List Char)
    (hp : ∀ c ∈ p, c ≠ '-') :
    Highrise.key_to_class_go (p ++ q)
      = (Highrise.key_to_class_go q).map (p ++ ·) := by
  induction p with
  | nil =>
    simp only [List.nil_append]
    cases Highrise.key_to_class_go q <;> rfl
  | cons c p2 ih =>
    have hc : c ≠ '-' := hp c (List.mem_cons_self _ _)
    show Highrise.key_to_class_go (c :: (p2 ++ q)) = _
    rw [Highrise.key_to_class_go, if_neg hc,
      ih (fun x hx => hp x (List.mem_cons_of_mem _ hx))]
    cases Highrise.key_to_class_go q <;> rfl

/-- Characters of a capitalized lowercase segment are never hyphens. -/
theorem capSeg_no_hyphen (seg : List Char) (h : ∀ c ∈ seg, c ∈ lowerAZ) :
    ∀ c ∈ capSeg seg, c ≠ '-' := by
  cases seg with
  | nil => intro c hc; simp [capSeg] at hc
  | cons d ds =>
    intro c hc
    rcases List.mem_cons.mp hc with rfl | hc2
    · exact (lower_char_facts d (h d (List.mem_cons_self _ _))).2.2.1
    · exact (lower_char_facts c
        (h c (List.mem_cons_of_mem _ hc2))).2.2.2.2.1

/-- Running the hyphen-elimination loop on a capitalized valid key
produces the concatenated camel-case name. -/
theorem key_to_class_go_capStr :
    ∀ (segs : List (List Char)), segs ≠ [] →
      (∀ seg ∈ segs, seg ≠ [] ∧ ∀ c ∈ seg, c ∈ lowerAZ) →
      Highrise.key_to_class_go (capStr segs) = some (camelOfSegs segs) := by
  intro segs
  induction segs with
  | nil => intro h; exact absurd rfl h
  | cons seg rest ih =>
    intro _ hv
    obtain ⟨hne, hlow⟩ := hv seg (List.mem_cons_self _ _)
    cases rest with
    | nil =>
      show Highrise.key_to_class_go (capSeg seg ++
        (List.map (fun s => '-' :: s) []).flatten) = _
      rw [show (List.map (fun s => '-' :: s) ([] : List (List Char))).flatten
          = [] from rfl,
        key_to_class_go_append (capSeg seg) [] (capSeg_no_hyphen seg hlow)]
      show some (capSeg seg ++ []) = some (camelOfSegs [seg])
      simp [camelOfSegs]
    | cons seg2 rest2 =>
      obtain ⟨hne2, hlow2⟩ := hv seg2 (List.mem_cons_of_mem _
        (List.mem_cons_self _ _))
      have hrest := ih (by simp)
        (fun q hq => hv q (List.mem_cons_of_mem _ hq))
      cases hseg2 : seg2 with
      | nil => exact absurd hseg2 hne2
      | cons d ds =>
        subst hseg2
        have hd := lower_char_facts d (hlow2 d (List.mem_cons_self _ _))
        -- the capitalized tail of the key, shared by both sides
        have hsplit : capStr ((d :: ds) :: rest2)
            = d.toUpper :: (ds ++ (List.map (fun s => '-' :: s) rest2).flatten) := by
          show capSeg (d :: ds) ++ _ = _
          rw [capSeg]
          rfl
        rw [hsplit, Highrise.key_to_class_go, if_neg hd.2.2.1] at hrest
        show Highrise.key_to_class_go (capSeg seg ++
          (List.map (fun s => '-' :: s) ((d :: ds) :: rest2)).flatten) = _
        rw [show (List.map (fun s => '-' :: s) ((d :: ds) :: rest2)).flatten
            = '-' :: ((d :: ds) ++ (List.map (fun s => '-' :: s) rest2).flatten)
            from rfl,
          key_to_class_go_append (capSeg seg) _ (capSeg_no_hyphen seg hlow)]
        rw [show Highrise.key_to_class_go
            ('-' :: ((d :: ds) ++ (List.map (fun s => '-' :: s) rest2).flatten))
            = Highrise.key_to_class_hyphen
              ((d :: ds) ++ (List.map (fun s => '-' :: s) rest2).flatten)
            from by rw [Highrise.key_to_class_go, if_pos rfl]]
        rw [show Highrise.key_to_class_hyphen
            ((d :: ds) ++ (List.map (fun s => '-' :: s) rest2).flatten)
            = if d.toUpper = '-' then
                Highrise.key_to_class_hyphen
                  (ds ++ (List.map (fun s => '-' :: s) rest2).flatten)
              else (Highrise.key_to_class_go
                  (ds ++ (List.map (fun s => '-' :: s) rest2).flatten)).map
                (d.toUpper :: ·)
            from rfl,
          if_neg hd.2.2.1, hrest]
        show some (capSeg seg ++ camelOfSegs ((d :: ds) :: rest2)) = _
        simp [camelOfSegs]

/-- Lowercase or hyphen characters are fixed by `Char.toLower`. -/
theorem map_toLower_fix (l : List Char)
    (h : ∀ c ∈ l, c ∈ lowerAZ ∨ c = '-') : l.map Char.toLower = l := by
  induction l with
  | nil => rfl
  | cons x rest ih =>
    rw [List.map_cons, ih (fun c hc => h c (List.mem_cons_of_mem _ hc))]
    rcases h x (List.mem_cons_self _ _) with hx | rfl
    · rw [(lower_char_facts x hx).2.2.2.1]
    · rfl

/-- Characters of the hyphen-joined tail of a valid key. -/
theorem keyTail_chars (rest : List (List Char))
    (h : ∀ seg ∈ rest, seg ≠ [] ∧ ∀ c ∈ seg, c ∈ lowerAZ) :
    ∀ c ∈ (List.map (fun s => '-' :: s) rest).flatten,
      c ∈ lowerAZ ∨ c = '-' := by
  intro c hc
  rw [List.mem_flatten] at hc
  obtain ⟨l, hl, hcl⟩ := hc
  rw [List.mem_map] at hl
  obtain ⟨seg, hseg, rfl⟩ := hl
  rcases List.mem_cons.mp hcl with rfl | hc2
  · exact Or.inr rfl
  · exact Or.inl ((h seg hseg).2 c hc2)

/-- `key_to_class` on a valid hyphenated key: capitalization fixes
everything but the head, and the loop produces the camel-case name. -/
theorem key_to_classL_of_valid (segs : List (List Char))
    (h : validSegs segs) :
    Highrise.key_to_classL (keyOfSegs segs) = some (camelOfSegs segs) := by
  obtain ⟨hnil, hv⟩ := h
  cases segs with
  | nil => exact absurd rfl hnil
  | cons seg rest =>
    obtain ⟨hne, hlow⟩ := hv seg (List.mem_cons_self _ _)
    cases hseg : seg with
    | nil => exact absurd hseg hne
    | cons c cs =>
      subst hseg
      unfold Highrise.key_to_classL
      have hkey : keyOfSegs ((c :: cs) :: rest)
          = c :: (cs ++ (List.map (fun s => '-' :: s) rest).flatten) := rfl
      rw [hkey]
      rw [show pyCapitalize
          (c :: (cs ++ (List.map (fun s => '-' :: s) rest).flatten))
          = c.toUpper :: ((cs ++ (List.map (fun s => '-' :: s) rest).flatten).map
            Char.toLower) from rfl]
      rw [map_toLower_fix _ ?hmix]
      case hmix =>
        intro x hx
        rcases List.mem_append.mp hx with hx1 | hx2
        · exact Or.inl (hlow x (List.mem_cons_of_mem _ hx1))
        · exact keyTail_chars rest
            (fun q hq => hv q (List.mem_cons_of_mem _ hq)) x hx2
      exact key_to_class_go_capStr ((c :: cs) :: rest) (by simp) hv

/-- `class_to_key` on the camel-case name of a valid key restores the
key. -/
theorem class_to_keyL_of_valid (segs : List (List Char))
    (h : validSegs segs) :
    Highrise.class_to_keyL (camelOfSegs segs) = keyOfSegs segs := by
  obtain ⟨hnil, hv⟩ := h
  unfold Highrise.class_to_keyL
  rw [class_to_key_loop_eq (countUpAZ (camelOfSegs segs)) (camelOfSegs segs)
    (camel_nameChars segs hv) (Nat.le_refl _)]
  rw [flatMap_expandUp_camel segs hnil hv]
  rfl

/-- C2: for every hyphenated lowercase ASCII wire key (a nonempty
sequence of nonempty lowercase segments joined by single hyphens,
represented by its segment list), `key_to_class` succeeds (never
raises) and produces the capitalized camel-case name,
`class_to_key` maps that name back to the key — and therefore
`key_to_class (class_to_key n) = n` for every name `n` that
`key_to_class` produces (`class_to_key` is total by construction). -/
theorem naming_roundtrip (segs : List (List Char)) (h : validSegs segs) :
    Highrise.key_to_classL (keyOfSegs segs) = some (camelOfSegs segs)
    ∧ Highrise.class_to_keyL (camelOfSegs segs) = keyOfSegs segs
    ∧ Highrise.key_to_classL (Highrise.class_to_keyL (camelOfSegs segs))
      = some (camelOfSegs segs) := by
  refine ⟨key_to_classL_of_valid segs h, class_to_keyL_of_valid segs h, ?_⟩
  rw [class_to_keyL_of_valid segs h]
  exact key_to_classL_of_valid segs h

/-- Witness for C2 at the key `contact-data` / name `ContactData`. -/
theorem naming_roundtrip_witness :
    validSegs ["contact".data, "data".data]
    ∧ (Highrise.key_to_classL (keyOfSegs ["contact".data, "data".data])
        = some (camelOfSegs ["contact".data, "data".data])
      ∧ Highrise.class_to_keyL (camelOfSegs ["contact".data, "data".data])
        = keyOfSegs ["contact".data, "data".data]
      ∧ Highrise.key_to_classL (Highrise.class_to_keyL
          (camelOfSegs ["contact".data, "data".data]))
        = some (camelOfSegs ["contact".data, "data".data])) :=
  ⟨by decide, naming_roundtrip ["contact".data, "data".data] (by decide)⟩
